import Mathlib

/-!
Verification of the s9_binance_codec websocket module (src/websocket.rs).

The Rust code defines three serde-(de)serializable message types
(`SubscriptionRequest`, `SubscriptionResponse`, `Trade`) together with the
coercion helpers `de_string_to_f64` and `de_from_str`, and relies on
`serde_json::to_string` / `serde_json::from_str` for the wire format.

The shallow embedding below models:
  * JSON values (`Json`), restricted to integer JSON numbers: every JSON
    number appearing in the module's wire formats (`id`, `E`, `t`, `T`)
    is an integer, and `price`/`quantity` travel as JSON *strings*;
  * `serde_json::to_string` as `renderJson` (compact output, fixed field
    order, serde_json's string-escaping table);
  * `serde_json::from_str` as `parseJson` (a fuel-based recursive-descent
    parser over the character list; the wire texts exercised by the claims
    contain no insignificant whitespace, and rendered output never does,
    so the model omits whitespace skipping);
  * the serde-derived struct deserializers as per-field lookups honouring
    the `#[serde(rename_all = "kebab-case")]` canonical names and the
    `#[serde(alias = "...")]` alternate names;
  * Rust `f64` values decoded by `de_string_to_f64` as exact rationals
    (`F64Val`, a normalized fraction): Rust's `str::parse::<f64>` is
    correctly rounded, so two decimal strings denoting the same rational
    parse to the same `f64`; equalities proved at the exact-value level
    therefore transfer to the floating-point level.  The non-finite forms
    accepted by Rust ("inf", "nan", ...) are outside this model and outside
    every claim.
All definitions are structurally recursive (fuel-based where needed) so
that concrete wire texts evaluate inside the kernel.
-/

namespace Binance

/- A JSON value, as `serde_json::Value` restricted to integer numbers.
`JsonArr`/`JsonObj` are explicit mutual list types so that all recursions
over JSON values are structural (hence kernel-reducible). Object fields
keep their textual order. -/
mutual
inductive Json where
  | null : Json
  | bool (b : Bool) : Json
  | num (n : Int) : Json
  | str (s : String) : Json
  | arr (elems : JsonArr) : Json
  | obj (fields : JsonObj) : Json

inductive JsonArr where
  | nil : JsonArr
  | cons (hd : Json) (tl : JsonArr) : JsonArr

inductive JsonObj where
  | nil : JsonObj
  | cons (key : String) (val : Json) (tl : JsonObj) : JsonObj
end

/-- The failure taxonomy of the decode paths (the Rust code returns
`serde_json::Error`): malformed JSON text, a missing required field,
a JSON value of the wrong type, a numeric string that does not parse
(`de_string_to_f64`'s `Error::custom(ParseFloatError)`), and `de_from_str`'s
`Error::custom` message. -/
inductive DecodeError where
  | malformed : DecodeError
  | missingField (name : String) : DecodeError
  | typeMismatch (expected : String) : DecodeError
  | numParse (input : String) : DecodeError
  | custom (msg : String) : DecodeError
deriving DecidableEq

deriving instance DecidableEq for Except
deriving instance DecidableEq for Json, JsonArr, JsonObj

/-! ### Rendering: the model of `serde_json::to_string` -/

/-- serde_json's string-escape table: `"` and `\` get a backslash escape,
the control characters BS, TAB, LF, FF, CR get their short escapes, the
remaining control characters below 0x20 get `\u00XX` (lowercase hex),
every other character is emitted verbatim. -/
def escChar (c : Char) : List Char :=
  if c = '"' then ['\\', '"']
  else if c = '\\' then ['\\', '\\']
  else if c = Char.ofNat 8 then ['\\', 'b']
  else if c = Char.ofNat 9 then ['\\', 't']
  else if c = Char.ofNat 10 then ['\\', 'n']
  else if c = Char.ofNat 12 then ['\\', 'f']
  else if c = Char.ofNat 13 then ['\\', 'r']
  else if c.toNat < 32 then
    ['\\', 'u', '0', '0',
      Char.ofNat (if c.toNat / 16 < 10 then 48 + c.toNat / 16 else 87 + c.toNat / 16),
      Char.ofNat (if c.toNat % 16 < 10 then 48 + c.toNat % 16 else 87 + c.toNat % 16)]
  else [c]

/-- A JSON string literal: quote, escaped characters, quote. -/
def renderStr (s : String) : List Char :=
  '"' :: (s.data.flatMap escChar) ++ ['"']

/-- Decimal digits of `n`, most significant first; structural on the fuel,
which `natChars` instantiates large enough (`n + 1`). -/
def natCharsAux : Nat → Nat → List Char
  | 0, _ => []
  | fuel + 1, n =>
    if n < 10 then [Char.ofNat (48 + n)]
    else natCharsAux fuel (n / 10) ++ [Char.ofNat (48 + n % 10)]

/-- Decimal representation of a natural number. -/
def natChars (n : Nat) : List Char := natCharsAux (n + 1) n

/-- Decimal representation of an integer (minus sign, then digits). -/
def intChars (i : Int) : List Char :=
  if i < 0 then '-' :: natChars i.natAbs else natChars i.natAbs

/- Compact JSON rendering, exactly as `serde_json::to_string`: no
whitespace, object fields in their given order.  The `All` functions
render a whole array/object body including the closing bracket; the
`Tail` functions render the remaining elements, each preceded by a comma,
and the closing bracket. -/
mutual
def renderV : Json → List Char
  | .num i => intChars i
  | .str s => renderStr s
  | .null => "null".data
  | .bool b => (cond b "true" "false").data
  | .arr a => '[' :: renderArrAll a
  | .obj o => '{' :: renderObjAll o

def renderArrAll : JsonArr → List Char
  | .nil => [']']
  | .cons v vs => renderV v ++ renderArrTail vs

def renderArrTail : JsonArr → List Char
  | .nil => [']']
  | .cons v vs => ',' :: (renderV v ++ renderArrTail vs)

def renderObjAll : JsonObj → List Char
  | .nil => ['}']
  | .cons k v ms => renderStr k ++ ':' :: renderV v ++ renderObjTail ms

def renderObjTail : JsonObj → List Char
  | .nil => ['}']
  | .cons k v ms => ',' :: (renderStr k ++ ':' :: renderV v ++ renderObjTail ms)
end

/-- The model of `serde_json::to_string` on a JSON value. -/
def renderJson (j : Json) : String := String.mk (renderV j)

/-! ### Parsing: the model of `serde_json::from_str`'s syntax layer -/

/-- Is `c` a decimal digit? -/
def isDigitCh (c : Char) : Bool := decide (48 ≤ c.toNat ∧ c.toNat ≤ 57)

/-- Value of a hexadecimal digit (JSON `\u` escapes). -/
def hexVal (c : Char) : Option Nat :=
  if 48 ≤ c.toNat ∧ c.toNat ≤ 57 then some (c.toNat - 48)
  else if 97 ≤ c.toNat ∧ c.toNat ≤ 102 then some (c.toNat - 87)
  else if 65 ≤ c.toNat ∧ c.toNat ≤ 70 then some (c.toNat - 55)
  else none

/-- Parse the body of a JSON string literal (the opening quote already
consumed): unescapes serde_json's escapes and stops after the closing
quote, returning the content and the remaining input.  A `\uXXXX` escape
above the BMP surrogate threshold would need serde's surrogate-pair logic;
no rendered output and no claim reaches it, so the model rejects it. -/
def pStrBody : List Char → Option (List Char × List Char)
  | [] => none
  | c :: cs =>
    if c = '"' then some ([], cs)
    else if c = '\\' then
      match cs with
      | [] => none
      | e :: es =>
        if e = '"' then (pStrBody es).map (fun p => ('"' :: p.1, p.2))
        else if e = '\\' then (pStrBody es).map (fun p => ('\\' :: p.1, p.2))
        else if e = '/' then (pStrBody es).map (fun p => ('/' :: p.1, p.2))
        else if e = 'b' then (pStrBody es).map (fun p => (Char.ofNat 8 :: p.1, p.2))
        else if e = 'f' then (pStrBody es).map (fun p => (Char.ofNat 12 :: p.1, p.2))
        else if e = 'n' then (pStrBody es).map (fun p => (Char.ofNat 10 :: p.1, p.2))
        else if e = 'r' then (pStrBody es).map (fun p => (Char.ofNat 13 :: p.1, p.2))
        else if e = 't' then (pStrBody es).map (fun p => (Char.ofNat 9 :: p.1, p.2))
        else if e = 'u' then
          match es with
          | h1 :: h2 :: h3 :: h4 :: rest =>
            match hexVal h1, hexVal h2, hexVal h3, hexVal h4 with
            | some a, some b, some c2, some d =>
              let n := ((a * 16 + b) * 16 + c2) * 16 + d
              if n < 55296 then
                (pStrBody rest).map (fun p => (Char.ofNat n :: p.1, p.2))
              else none
            | _, _, _, _ => none
          | _ => none
        else none
    else (pStrBody cs).map (fun p => (c :: p.1, p.2))

/-- Split off the longest prefix of decimal digits. -/
def takeDigits : List Char → (List Char × List Char)
  | [] => ([], [])
  | c :: cs =>
    if isDigitCh c then
      let p := takeDigits cs
      (c :: p.1, p.2)
    else ([], c :: cs)

/-- Numeric value of a list of decimal digits. -/
def digitsVal (l : List Char) : Nat :=
  l.foldl (fun a c => a * 10 + (c.toNat - 48)) 0

/-- Parse a JSON integer (optional minus sign, then digits). -/
def pNum : List Char → Option (Int × List Char)
  | [] => none
  | c :: cs =>
    if c = '-' then
      let p := takeDigits cs
      if p.1 = [] then none else some (-(digitsVal p.1 : Int), p.2)
    else
      let p := takeDigits (c :: cs)
      if p.1 = [] then none else some ((digitsVal p.1 : Int), p.2)

/- Recursive-descent JSON value parser, structural on the fuel.
`pElems` parses the elements of a non-empty array up to and including the
closing `]`; `pMems` likewise for a non-empty object. -/
mutual
def pVal : Nat → List Char → Option (Json × List Char)
  | 0, _ => none
  | _ + 1, [] => none
  | fuel + 1, c :: cs =>
    if c = '"' then
      (pStrBody cs).map (fun p => (.str (String.mk p.1), p.2))
    else if c = 'n' then
      match cs with
      | 'u' :: 'l' :: 'l' :: rest => some (.null, rest)
      | _ => none
    else if c = 't' then
      match cs with
      | 'r' :: 'u' :: 'e' :: rest => some (.bool true, rest)
      | _ => none
    else if c = 'f' then
      match cs with
      | 'a' :: 'l' :: 's' :: 'e' :: rest => some (.bool false, rest)
      | _ => none
    else if c = '[' then
      match cs with
      | [] => none
      | d :: ds =>
        if d = ']' then some (.arr .nil, ds)
        else (pElems fuel (d :: ds)).map (fun p => (.arr p.1, p.2))
    else if c = '{' then
      match cs with
      | [] => none
      | d :: ds =>
        if d = '}' then some (.obj .nil, ds)
        else (pMems fuel (d :: ds)).map (fun p => (.obj p.1, p.2))
    else
      (pNum (c :: cs)).map (fun p => (.num p.1, p.2))

def pElems : Nat → List Char → Option (JsonArr × List Char)
  | 0, _ => none
  | fuel + 1, cs =>
    (pVal fuel cs).bind (fun pv =>
      match pv.2 with
      | [] => none
      | d :: ds =>
        if d = ',' then (pElems fuel ds).map (fun q => (.cons pv.1 q.1, q.2))
        else if d = ']' then some (.cons pv.1 .nil, ds)
        else none)

def pMems : Nat → List Char → Option (JsonObj × List Char)
  | 0, _ => none
  | fuel + 1, cs =>
    match cs with
    | [] => none
    | c :: cs2 =>
      if c = '"' then
        (pStrBody cs2).bind (fun pk =>
          match pk.2 with
          | [] => none
          | d :: ds =>
            if d = ':' then
              (pVal fuel ds).bind (fun pv =>
                match pv.2 with
                | [] => none
                | d2 :: ds2 =>
                  if d2 = ',' then
                    (pMems fuel ds2).map (fun q => (.cons (String.mk pk.1) pv.1 q.1, q.2))
                  else if d2 = '}' then some (.cons (String.mk pk.1) pv.1 .nil, ds2)
                  else none)
            else none)
      else none
end

/-- The model of `serde_json::from_str`'s syntax layer: the whole input
must be consumed. -/
def parseJson (s : String) : Except DecodeError Json :=
  match pVal (s.data.length + 1) s.data with
  | some (v, []) => .ok v
  | _ => .error .malformed

/-! ### Exact values of finite `f64`s -/

/-- Greatest common divisor, structural on a fuel (`Nat.gcd` itself is
defined by well-founded recursion and does not reduce in the kernel). -/
def gcdAux : Nat → Nat → Nat → Nat
  | 0, _, b => b
  | fuel + 1, a, b => if a = 0 then b else gcdAux fuel (b % a) a

/-- Kernel-reducible gcd: `a + 1` steps always suffice because the first
argument strictly decreases at every step. -/
def natGcd (a b : Nat) : Nat := gcdAux (a + 1) a b

/-- The exact rational value of a finite `f64`-producing decode, kept as a
normalized fraction so that structural equality is value equality.
Always built through `mkF64`. -/
structure F64Val where
  num : Int
  den : Nat
deriving DecidableEq

/-- Normalize `n / d` (with `d > 0` at every use site). -/
def mkF64 (n : Int) (d : Nat) : F64Val :=
  let g := natGcd n.natAbs d
  ⟨n / (g : Int), d / g⟩

/-- The value of `ds . fs ~e~ (esgn * es)` as a normalized fraction:
`sign * (ds ++ fs as an integer) / 10 ^ |fs|`, exponent applied to the
numerator or the denominator. -/
def decValue (neg : Bool) (ds fs : List Char) (epos : Bool) (e : Nat) : F64Val :=
  let m : Nat := digitsVal ds * 10 ^ fs.length + digitsVal fs
  let mi : Int := if neg then -(m : Int) else (m : Int)
  if epos then mkF64 (mi * (10 : Int) ^ e) (10 ^ fs.length)
  else mkF64 mi (10 ^ fs.length * 10 ^ e)

/-- The model of Rust `str::parse::<f64>()` on the finite decimal grammar
`sign? (digits ('.' digits*)? | '.' digits+) (('e'|'E') sign? digits+)?`,
entire input consumed.  Rust's parse is correctly rounded, so the exact
rational value determines the `f64`.  (Rust additionally accepts the
non-finite spellings "inf"/"infinity"/"nan", which have no exact value and
are rejected here; no claim involves them.) -/
def parseF64 (s : String) : Option F64Val :=
  let (neg, cs0) :=
    match s.data with
    | '-' :: r => (true, r)
    | '+' :: r => (false, r)
    | r => (false, r)
  let (ds, cs1) := takeDigits cs0
  let (fs, cs2) :=
    match cs1 with
    | '.' :: r => takeDigits r
    | r => ([], r)
  if ds = [] ∧ fs = [] then none
  else
    match cs2 with
    | [] => some (decValue neg ds fs true 0)
    | e :: cs3 =>
      if e = 'e' ∨ e = 'E' then
        let (epos, cs4) :=
          match cs3 with
          | '-' :: r => (false, r)
          | '+' :: r => (true, r)
          | r => (true, r)
        let (es, cs5) := takeDigits cs4
        if es = [] ∨ cs5 ≠ [] then none
        else some (decValue neg ds fs epos (digitsVal es))
      else none

/-- Does the remaining input not start with a digit?  A rendered number
followed by such a remainder parses back to itself. -/
def noDigitHead : List Char → Bool
  | [] => true
  | c :: _ => !(isDigitCh c)

/-! ### The coercion helpers (src/websocket.rs lines 4-30) -/

/-- Model of `de_string_to_f64`: deserialize a JSON string, then parse it
as `f64`; a parse failure becomes `Error::custom(ParseFloatError)`,
modelled as `DecodeError.numParse`. -/
def de_string_to_f64 (v : Json) : Except DecodeError F64Val :=
  match v with
  | .str s =>
    match parseF64 s with
    | some q => .ok q
    | none => .error (.numParse s)
  | _ => .error (.typeMismatch "string")

/-- Model of `de_from_str`: a JSON string deserializes to itself, a JSON
boolean to its textual form, and every other JSON value fails with
`Error::custom("Failed to deserialize to String or bool")`. -/
def de_from_str (v : Json) : Except DecodeError (Option String) :=
  match v with
  | .str s => .ok (some s)
  | .bool b => .ok (some (if b then "true" else "false"))
  | _ => .error (.custom "Failed to deserialize to String or bool")

/-! ### Field lookup: the serde-derived struct deserializers -/

/-- First field of the object whose key is one of `names` (the canonical
kebab-case name or a `#[serde(alias)]`); serde matches map keys against
the accepted name set, and unknown keys are skipped (serde's default). -/
def findField (fs : JsonObj) (names : List String) : Option Json :=
  match fs with
  | .nil => none
  | .cons k v tl => if k ∈ names then some v else findField tl names

/-- A required struct field: absence is serde's "missing field" error. -/
def reqField (fs : JsonObj) (names : List String) (fieldName : String) :
    Except DecodeError Json :=
  match findField fs names with
  | some v => .ok v
  | none => .error (.missingField fieldName)

/-- Decode a JSON string (serde `String`). -/
def decodeString (v : Json) : Except DecodeError String :=
  match v with
  | .str s => .ok s
  | _ => .error (.typeMismatch "string")

/-- Decode a `u64`: an integer representable in 64 unsigned bits. -/
def decodeU64 (v : Json) : Except DecodeError Nat :=
  match v with
  | .num i => if 0 ≤ i ∧ i < 2 ^ 64 then .ok i.toNat else .error (.typeMismatch "u64")
  | _ => .error (.typeMismatch "u64")

/-- Decode a `bool`. -/
def decodeBool (v : Json) : Except DecodeError Bool :=
  match v with
  | .bool b => .ok b
  | _ => .error (.typeMismatch "bool")

/-- Decode the elements of a JSON array as strings (serde `Vec<String>`). -/
def decodeStrElems : JsonArr → Except DecodeError (List String)
  | .nil => .ok []
  | .cons v vs => do
    let s ← decodeString v
    let rest ← decodeStrElems vs
    .ok (s :: rest)

/-- Decode a `Vec<String>`. -/
def decodeStrList (v : Json) : Except DecodeError (List String) :=
  match v with
  | .arr a => decodeStrElems a
  | _ => .error (.typeMismatch "array of strings")

/-- Decode an `Option<Vec<String>>` struct field: a missing field and an
explicit JSON `null` both give `None` (serde's `Option` behaviour); a
present array gives `Some`. -/
def decodeOptStrList (o : Option Json) : Except DecodeError (Option (List String)) :=
  match o with
  | none => .ok none
  | some .null => .ok none
  | some v => (decodeStrList v).map some

/-! ### SubscriptionRequest (src/websocket.rs lines 32-59) -/

/-- `SubscriptionRequest`: `method`, `params` (stream names, in insertion
order), `id` (`u64`, modelled as `Nat`; every value the Rust type can hold
is `< 2 ^ 64`). -/
structure SubscriptionRequest where
  method : String
  params : List String
  id : Nat
deriving DecidableEq

namespace SubscriptionRequest

/-- `SubscriptionRequest::new`: method fixed to `"SUBSCRIBE"`, empty
params, the given id. -/
def new (id : Nat) : SubscriptionRequest :=
  { method := "SUBSCRIBE", params := [], id := id }

/-- `SubscriptionRequest::add_stream`: push one stream name at the end of
`params` (the `&mut self` update modelled functionally). -/
def add_stream (r : SubscriptionRequest) (stream : String) : SubscriptionRequest :=
  { r with params := r.params ++ [stream] }

/-- The serde `Serialize` of `SubscriptionRequest`: field order `method`,
`params`, `id`; `rename_all = "kebab-case"` leaves these single-word keys
unchanged. -/
def toJsonValue (r : SubscriptionRequest) : Json :=
  .obj (.cons "method" (.str r.method)
    (.cons "params" (.arr (strArr r.params))
      (.cons "id" (.num (r.id : Int)) .nil)))
where
  /-- `Vec<String>` serializes as a JSON array of strings. -/
  strArr : List String → JsonArr
    | [] => .nil
    | s :: ss => .cons (.str s) (strArr ss)

/-- `SubscriptionRequest::to_json`, i.e. `serde_json::to_string(&self)`:
for this type serialization cannot fail (`serde_json` errors only arise
from non-string map keys or a failing `Serialize` impl, neither of which
this struct has). -/
def to_json (r : SubscriptionRequest) : Except DecodeError String :=
  .ok (renderJson r.toJsonValue)

/-- The serde-derived `Deserialize` of `SubscriptionRequest` on a parsed
JSON value: all three fields required, aliases equal to the canonical
names (`#[serde(alias = "method")]` etc. restate them). -/
def fromJsonValue (v : Json) : Except DecodeError SubscriptionRequest :=
  match v with
  | .obj fs => do
    let m ← reqField fs ["method"] "method" >>= decodeString
    let p ← reqField fs ["params"] "params" >>= decodeStrList
    let i ← reqField fs ["id"] "id" >>= decodeU64
    .ok { method := m, params := p, id := i }
  | _ => .error (.typeMismatch "struct SubscriptionRequest")

/-- `serde_json::from_str::<SubscriptionRequest>` (the decode direction
exercised by the repository's tests). -/
def from_json (s : String) : Except DecodeError SubscriptionRequest :=
  (parseJson s).bind fromJsonValue

end SubscriptionRequest

/-! ### SubscriptionResponse (src/websocket.rs lines 61-74) -/

/-- `SubscriptionResponse`: `result` is `Option<Vec<String>>` (absent/null
distinct from present-and-empty), `id` is `u64`. -/
structure SubscriptionResponse where
  result : Option (List String)
  id : Nat
deriving DecidableEq

namespace SubscriptionResponse

/-- The serde-derived `Deserialize` of `SubscriptionResponse`: `result` is
optional (missing or `null` give `None`), `id` required. -/
def fromJsonValue (v : Json) : Except DecodeError SubscriptionResponse :=
  match v with
  | .obj fs => do
    let res ← decodeOptStrList (findField fs ["result"])
    let i ← reqField fs ["id"] "id" >>= decodeU64
    .ok { result := res, id := i }
  | _ => .error (.typeMismatch "struct SubscriptionResponse")

/-- `SubscriptionResponse::from_json`, i.e. `serde_json::from_str`. -/
def from_json (s : String) : Except DecodeError SubscriptionResponse :=
  (parseJson s).bind fromJsonValue

end SubscriptionResponse

/-! ### Trade (src/websocket.rs lines 76-103) -/

/-- `Trade`: the trade tick record. `price` and `quantity` are `f64` in
Rust, decoded from JSON strings through `de_string_to_f64`; they are
modelled by their exact values (`F64Val`). -/
structure Trade where
  event_type : String
  event_time : Nat
  symbol : String
  trade_id : Nat
  price : F64Val
  quantity : F64Val
  trade_time : Nat
  is_buyer_market_maker : Bool
  ignore : Bool
deriving DecidableEq

namespace Trade

/-- The serde-derived `Deserialize` of `Trade`: each field accepts its
kebab-case canonical key (`rename_all = "kebab-case"`) or its single-letter
wire alias (`#[serde(alias = "e")]` etc.); `price` and `quantity` go
through `de_string_to_f64`. -/
def fromJsonValue (v : Json) : Except DecodeError Trade :=
  match v with
  | .obj fs => do
    let et ← reqField fs ["event-type", "e"] "event_type" >>= decodeString
    let etime ← reqField fs ["event-time", "E"] "event_time" >>= decodeU64
    let sym ← reqField fs ["symbol", "s"] "symbol" >>= decodeString
    let tid ← reqField fs ["trade-id", "t"] "trade_id" >>= decodeU64
    let pr ← reqField fs ["price", "p"] "price" >>= de_string_to_f64
    let qt ← reqField fs ["quantity", "q"] "quantity" >>= de_string_to_f64
    let ttime ← reqField fs ["trade-time", "T"] "trade_time" >>= decodeU64
    let mm ← reqField fs ["is-buyer-market-maker", "m"] "is_buyer_market_maker" >>= decodeBool
    let ig ← reqField fs ["ignore", "M"] "ignore" >>= decodeBool
    .ok { event_type := et, event_time := etime, symbol := sym, trade_id := tid,
          price := pr, quantity := qt, trade_time := ttime,
          is_buyer_market_maker := mm, ignore := ig }
  | _ => .error (.typeMismatch "struct Trade")

/-- `Trade::from_json`, i.e. `serde_json::from_str::<Trade>`. -/
def from_json (s : String) : Except DecodeError Trade :=
  (parseJson s).bind fromJsonValue

end Trade

/-! ### Concrete wire texts exercised by the specification's scenarios -/

/-- `{"result":null,"id":500}` -/
def textResultNull : String := "\x7b\"result\":null,\"id\":500\x7d"

/-- `{"result":[],"id":500}` -/
def textResultEmpty : String := "\x7b\"result\":[],\"id\":500\x7d"

/-- `{"id":500}` (no `result` key at all) -/
def textNoResult : String := "\x7b\"id\":500\x7d"

/-- The spec's literal trade tick, keyed by the single-letter wire tags. -/
def tradeWireText : String :=
  "\x7b\"e\":\"trade\",\"E\":1759680390108723,\"s\":\"ETHUSDT\",\"t\":2921785139,\"p\":\"4532.56000000\",\"q\":\"0.01320000\",\"T\":1759680390108254,\"m\":true,\"M\":true\x7d"

/-- The same trade tick keyed by the kebab-case canonical field names. -/
def tradeKebabText : String :=
  "\x7b\"event-type\":\"trade\",\"event-time\":1759680390108723,\"symbol\":\"ETHUSDT\",\"trade-id\":2921785139,\"price\":\"4532.56000000\",\"quantity\":\"0.01320000\",\"trade-time\":1759680390108254,\"is-buyer-market-maker\":true,\"ignore\":true\x7d"

/-- The literal trade tick with `p` replaced by the unparsable string
`"not-a-number"`. -/
def tradeBadPriceText : String :=
  "\x7b\"e\":\"trade\",\"E\":1759680390108723,\"s\":\"ETHUSDT\",\"t\":2921785139,\"p\":\"not-a-number\",\"q\":\"0.01320000\",\"T\":1759680390108254,\"m\":true,\"M\":true\x7d"

/-- The JSON object `tradeBadPriceText` parses to. -/
def tradeBadPriceObj : JsonObj :=
  .cons "e" (.str "trade")
    (.cons "E" (.num 1759680390108723)
      (.cons "s" (.str "ETHUSDT")
        (.cons "t" (.num 2921785139)
          (.cons "p" (.str "not-a-number")
            (.cons "q" (.str "0.01320000")
              (.cons "T" (.num 1759680390108254)
                (.cons "m" (.bool true)
                  (.cons "M" (.bool true) .nil))))))))

/-- The decoded Trade value of the spec's literal scenario.  `price` and
`quantity` are the exact values of the floats `4532.56` and `0.0132`. -/
def tradeExpected : Trade :=
  { event_type := "trade", event_time := 1759680390108723, symbol := "ETHUSDT",
    trade_id := 2921785139, price := mkF64 453256 100, quantity := mkF64 132 10000,
    trade_time := 1759680390108254, is_buyer_market_maker := true, ignore := true }

/-! ### Character and digit lemmas -/

theorem toNat_ofNat_small {n : Nat} (h : n < 55296) : (Char.ofNat n).toNat = n := by
  have hv : n.isValidChar := Or.inl h
  simp only [Char.ofNat, hv, dite_true, Char.ofNatAux, Char.toNat]
  simp [UInt32.toNat, BitVec.toNat_ofNat]

theorem char_ne_of_toNat_ne {a b : Char} (h : a.toNat ≠ b.toNat) : a ≠ b :=
  fun hab => h (congrArg Char.toNat hab)

theorem isDigitCh_toNat {c : Char} (h : isDigitCh c = true) :
    48 ≤ c.toNat ∧ c.toNat ≤ 57 := by
  simpa [isDigitCh] using h

theorem isDigitCh_ofNat {n : Nat} (h : n < 10) :
    isDigitCh (Char.ofNat (48 + n)) = true := by
  simp [isDigitCh, toNat_ofNat_small (by omega : 48 + n < 55296)]
  omega

/-- Digit lists produced by `natCharsAux` (with enough fuel): nonempty,
all digits, and `digitsVal` recovers the number. -/
theorem natCharsAux_spec :
    ∀ (fuel n : Nat), n < fuel →
      (∃ c t, natCharsAux fuel n = c :: t) ∧
      (∀ c ∈ natCharsAux fuel n, isDigitCh c = true) ∧
      digitsVal (natCharsAux fuel n) = n := by
  intro fuel
  induction fuel with
  | zero => omega
  | succ f ih =>
    intro n hn
    by_cases h10 : n < 10
    · refine ⟨⟨Char.ofNat (48 + n), [], by simp [natCharsAux, h10]⟩, ?_, ?_⟩
      · intro c hc
        simp [natCharsAux, h10] at hc
        simp [hc, isDigitCh_ofNat h10]
      · simp [natCharsAux, h10, digitsVal, toNat_ofNat_small (by omega : 48 + n < 55296)]
    · have hdiv : n / 10 < f := by omega
      obtain ⟨⟨c0, t0, hshape⟩, hdigits, hval⟩ := ih (n / 10) hdiv
      have hmod : n % 10 < 10 := Nat.mod_lt _ (by omega)
      refine ⟨?_, ?_, ?_⟩
      · exact ⟨c0, t0 ++ [Char.ofNat (48 + n % 10)], by
          simp [natCharsAux, h10, hshape]⟩
      · intro c hc
        simp only [natCharsAux, h10, if_false, List.mem_append, List.mem_singleton] at hc
        rcases hc with hc | hc
        · exact hdigits c hc
        · simp [hc, isDigitCh_ofNat hmod]
      · simp only [natCharsAux, h10, if_false, digitsVal, List.foldl_append]
        have : (natCharsAux f (n / 10)).foldl (fun a c => a * 10 + (c.toNat - 48)) 0 = n / 10 := hval
        simp [List.foldl, this, toNat_ofNat_small (by omega : 48 + n % 10 < 55296)]
        omega

theorem natChars_shape (n : Nat) : ∃ c t, natChars n = c :: t :=
  (natCharsAux_spec (n + 1) n (by omega)).1

theorem natChars_digits (n : Nat) : ∀ c ∈ natChars n, isDigitCh c = true :=
  (natCharsAux_spec (n + 1) n (by omega)).2.1

theorem digitsVal_natChars (n : Nat) : digitsVal (natChars n) = n :=
  (natCharsAux_spec (n + 1) n (by omega)).2.2

theorem takeDigits_append {l rest : List Char}
    (hl : ∀ c ∈ l, isDigitCh c = true) (hr : noDigitHead rest = true) :
    takeDigits (l ++ rest) = (l, rest) := by
  induction l with
  | nil =>
    cases rest with
    | nil => rfl
    | cons c cs =>
      simp only [noDigitHead, Bool.not_eq_true'] at hr
      simp [takeDigits, hr]
  | cons c cs ih =>
    have hc : isDigitCh c = true := hl c (by simp)
    have ihh := ih (fun d hd => hl d (by simp [hd]))
    simp [takeDigits, hc, ihh]

theorem pNum_natChars {n : Nat} {rest : List Char} (hr : noDigitHead rest = true) :
    pNum (natChars n ++ rest) = some ((n : Int), rest) := by
  obtain ⟨c, t, hshape⟩ := natChars_shape n
  have hdig : isDigitCh c = true := natChars_digits n c (by simp [hshape])
  have hne : c ≠ '-' := by
    intro hEq
    have h2 := isDigitCh_toNat hdig
    have h45 : ('-' : Char).toNat = 45 := rfl
    rw [hEq, h45] at h2
    omega
  have htd : takeDigits (natChars n ++ rest) = (natChars n, rest) :=
    takeDigits_append (natChars_digits n) hr
  rw [hshape] at htd ⊢
  simp only [List.cons_append, pNum, if_neg hne]
  rw [← List.cons_append, htd]
  have hval : digitsVal (c :: t) = n := by rw [← hshape]; exact digitsVal_natChars n
  simp [hval]

theorem pNum_intChars {i : Int} {rest : List Char} (hr : noDigitHead rest = true) :
    pNum (intChars i ++ rest) = some (i, rest) := by
  by_cases hneg : i < 0
  · have htd : takeDigits (natChars i.natAbs ++ rest) = (natChars i.natAbs, rest) :=
      takeDigits_append (natChars_digits _) hr
    obtain ⟨c, t, hshape⟩ := natChars_shape i.natAbs
    have hnn : natChars i.natAbs ≠ [] := by simp [hshape]
    simp only [intChars, if_pos hneg, List.cons_append, pNum, if_pos rfl, htd]
    rw [if_neg hnn, digitsVal_natChars]
    have hival : -((i.natAbs : Int)) = i := by omega
    rw [hival]
    simp
  · rw [show intChars i = natChars i.natAbs from by simp [intChars, hneg]]
    rw [pNum_natChars hr]
    have hival : ((i.natAbs : Int)) = i := by omega
    rw [hival]

/-! ### String escaping round trip -/

theorem hexVal_hexDigit {d : Nat} (h : d < 16) :
    hexVal (Char.ofNat (if d < 10 then 48 + d else 87 + d)) = some d := by
  by_cases h10 : d < 10
  · simp only [if_pos h10, hexVal, toNat_ofNat_small (show 48 + d < 55296 by omega)]
    rw [if_pos (by omega)]
    congr 1
    omega
  · simp only [if_neg h10, hexVal, toNat_ofNat_small (show 87 + d < 55296 by omega)]
    rw [if_neg (by omega), if_pos (by omega)]
    congr 1
    omega

theorem hexVal_zero : hexVal '0' = some 0 := rfl

/-- Unescaping is a left inverse of serde_json's escaping: the body of a
rendered string literal parses back to the original characters. -/
theorem pStrBody_esc (l : List Char) : ∀ rest : List Char,
    pStrBody (l.flatMap escChar ++ '"' :: rest) = some (l, rest) := by
  induction l with
  | nil =>
    intro rest
    rw [List.flatMap_nil, List.nil_append, pStrBody.eq_def]
    simp
  | cons c cs ih =>
    intro rest
    rw [List.flatMap_cons, List.append_assoc]
    by_cases h1 : c = '"'
    · subst h1
      simp only [escChar, if_pos rfl, List.cons_append, List.nil_append]
      rw [pStrBody.eq_def]
      simp [ih]
    by_cases h2 : c = '\\'
    · subst h2
      simp only [escChar, if_pos rfl, if_neg (by decide : ('\\' : Char) ≠ '"'),
        List.cons_append, List.nil_append]
      rw [pStrBody.eq_def]
      simp [ih]
    by_cases h3 : c = Char.ofNat 8
    · subst h3
      simp only [escChar, if_neg h1, if_neg h2, if_pos rfl, List.cons_append, List.nil_append]
      rw [pStrBody.eq_def]
      simp [ih]
    by_cases h4 : c = Char.ofNat 9
    · subst h4
      simp only [escChar, if_neg h1, if_neg h2, if_neg h3, if_pos rfl,
        List.cons_append, List.nil_append]
      rw [pStrBody.eq_def]
      simp [ih]
    by_cases h5 : c = Char.ofNat 10
    · subst h5
      simp only [escChar, if_neg h1, if_neg h2, if_neg h3, if_neg h4, if_pos rfl,
        List.cons_append, List.nil_append]
      rw [pStrBody.eq_def]
      simp [ih]
    by_cases h6 : c = Char.ofNat 12
    · subst h6
      simp only [escChar, if_neg h1, if_neg h2, if_neg h3, if_neg h4, if_neg h5, if_pos rfl,
        List.cons_append, List.nil_append]
      rw [pStrBody.eq_def]
      simp [ih]
    by_cases h7 : c = Char.ofNat 13
    · subst h7
      simp only [escChar, if_neg h1, if_neg h2, if_neg h3, if_neg h4, if_neg h5, if_neg h6,
        if_pos rfl, List.cons_append, List.nil_append]
      rw [pStrBody.eq_def]
      simp [ih]
    by_cases h8 : c.toNat < 32
    · have hd1 : c.toNat / 16 < 16 := by omega
      have hd2 : c.toNat % 16 < 16 := by omega
      simp only [escChar, if_neg h1, if_neg h2, if_neg h3, if_neg h4, if_neg h5,
        if_neg h6, if_neg h7, if_pos h8, List.cons_append, List.nil_append]
      rw [pStrBody.eq_def]
      simp only [hexVal_hexDigit hd1, hexVal_hexDigit hd2, hexVal_zero]
      have hn : ((0 * 16 + 0) * 16 + c.toNat / 16) * 16 + c.toNat % 16 = c.toNat := by omega
      simp [hn, show c.toNat < 55296 by omega, ih, Char.ofNat_toNat]
      have hdm : c.toNat / 16 * 16 + c.toNat % 16 = c.toNat := by omega
      rw [hdm]
      exact ⟨by omega, Char.ofNat_toNat c⟩
    · simp only [escChar, if_neg h1, if_neg h2, if_neg h3, if_neg h4, if_neg h5,
        if_neg h6, if_neg h7, if_neg h8, List.cons_append, List.nil_append]
      rw [pStrBody.eq_def]
      simp [h1, h2, ih]

/-! ### The parser-printer round trip -/

theorem renderV_head (j : Json) : ∃ c t, renderV j = c :: t ∧ c ≠ ']' ∧ c ≠ '}' := by
  cases j with
  | null => exact ⟨'n', ['u', 'l', 'l'], rfl, by decide, by decide⟩
  | bool b =>
    cases b with
    | false => exact ⟨'f', ['a', 'l', 's', 'e'], rfl, by decide, by decide⟩
    | true => exact ⟨'t', ['r', 'u', 'e'], rfl, by decide, by decide⟩
  | num i =>
    have hV : renderV (.num i) = intChars i := rfl
    by_cases hneg : i < 0
    · exact ⟨'-', natChars i.natAbs, by rw [hV]; simp [intChars, hneg], by decide, by decide⟩
    · obtain ⟨c, t, hshape⟩ := natChars_shape i.natAbs
      have hdig := isDigitCh_toNat (natChars_digits i.natAbs c (by simp [hshape]))
      refine ⟨c, t, ?_, ?_, ?_⟩
      · rw [hV]; simp [intChars, hneg, hshape]
      · exact char_ne_of_toNat_ne (by intro h2; rw [h2] at hdig; revert hdig; decide)
      · exact char_ne_of_toNat_ne (by intro h2; rw [h2] at hdig; revert hdig; decide)
  | str s => exact ⟨'"', s.data.flatMap escChar ++ ['"'], rfl, by decide, by decide⟩
  | arr a => exact ⟨'[', renderArrAll a, rfl, by decide, by decide⟩
  | obj o => exact ⟨'{', renderObjAll o, rfl, by decide, by decide⟩

theorem renderV_length_pos (j : Json) : 0 < (renderV j).length := by
  obtain ⟨c, t, hshape, -, -⟩ := renderV_head j
  simp [hshape]

theorem renderArrTail_length_pos (vs : JsonArr) : 0 < (renderArrTail vs).length := by
  cases vs <;> simp [renderArrTail]

theorem renderObjTail_length_pos (ms : JsonObj) : 0 < (renderObjTail ms).length := by
  cases ms <;> simp [renderObjTail]

/-- The digit facts used when a rendered number is followed by more
rendered output: none of the characters a number is followed by in a
rendered JSON document is a digit. -/
theorem noDigitHead_cons {c : Char} (h : isDigitCh c = false) (xs : List Char) :
    noDigitHead (c :: xs) = true := by
  simp [noDigitHead, h]

/-! Small-step reduction lemmas for the parser: `pVal`, `pElems` and
`pMems` are structurally recursive, so each known head shape reduces
definitionally. -/

theorem pVal_null (f : Nat) (rest : List Char) :
    pVal (f + 1) ('n' :: 'u' :: 'l' :: 'l' :: rest) = some (.null, rest) := rfl

theorem pVal_true (f : Nat) (rest : List Char) :
    pVal (f + 1) ('t' :: 'r' :: 'u' :: 'e' :: rest) = some (.bool true, rest) := rfl

theorem pVal_false (f : Nat) (rest : List Char) :
    pVal (f + 1) ('f' :: 'a' :: 'l' :: 's' :: 'e' :: rest) = some (.bool false, rest) := rfl

theorem pVal_quote (f : Nat) (cs : List Char) :
    pVal (f + 1) ('"' :: cs) =
      (pStrBody cs).map (fun p => (Json.str (String.mk p.1), p.2)) := rfl

theorem pVal_arrNil (f : Nat) (rest : List Char) :
    pVal (f + 1) ('[' :: ']' :: rest) = some (.arr .nil, rest) := rfl

theorem pVal_arrCons (f : Nat) (d : Char) (ds : List Char) (h : d ≠ ']') :
    pVal (f + 1) ('[' :: d :: ds) =
      (pElems f (d :: ds)).map (fun p => (Json.arr p.1, p.2)) := by
  have h0 : pVal (f + 1) ('[' :: d :: ds) =
      if d = ']' then some (.arr .nil, ds)
      else (pElems f (d :: ds)).map (fun p => (Json.arr p.1, p.2)) := rfl
  rw [h0, if_neg h]

theorem pVal_objNil (f : Nat) (rest : List Char) :
    pVal (f + 1) ('{' :: '}' :: rest) = some (.obj .nil, rest) := rfl

theorem pVal_objCons (f : Nat) (d : Char) (ds : List Char) (h : d ≠ '}') :
    pVal (f + 1) ('{' :: d :: ds) =
      (pMems f (d :: ds)).map (fun p => (Json.obj p.1, p.2)) := by
  have h0 : pVal (f + 1) ('{' :: d :: ds) =
      if d = '}' then some (.obj .nil, ds)
      else (pMems f (d :: ds)).map (fun p => (Json.obj p.1, p.2)) := rfl
  rw [h0, if_neg h]

theorem pVal_minus (f : Nat) (cs : List Char) :
    pVal (f + 1) ('-' :: cs) =
      (pNum ('-' :: cs)).map (fun p => (Json.num p.1, p.2)) := rfl

theorem pVal_digit (f : Nat) (c : Char) (cs : List Char) (h : isDigitCh c = true) :
    pVal (f + 1) (c :: cs) =
      (pNum (c :: cs)).map (fun p => (Json.num p.1, p.2)) := by
  have h2 := isDigitCh_toNat h
  have hc : Char.ofNat c.toNat = c := Char.ofNat_toNat c
  have h3 : c.toNat = 48 ∨ c.toNat = 49 ∨ c.toNat = 50 ∨ c.toNat = 51 ∨ c.toNat = 52 ∨
      c.toNat = 53 ∨ c.toNat = 54 ∨ c.toNat = 55 ∨ c.toNat = 56 ∨ c.toNat = 57 := by omega
  rcases h3 with h3 | h3 | h3 | h3 | h3 | h3 | h3 | h3 | h3 | h3 <;> rw [← hc, h3] <;> rfl

theorem pElems_succ (f : Nat) (cs : List Char) :
    pElems (f + 1) cs =
      (pVal f cs).bind (fun pv =>
        match pv.2 with
        | [] => none
        | d :: ds =>
          if d = ',' then (pElems f ds).map (fun q => (JsonArr.cons pv.1 q.1, q.2))
          else if d = ']' then some (.cons pv.1 .nil, ds)
          else none) := rfl

theorem pMems_quote (f : Nat) (cs2 : List Char) :
    pMems (f + 1) ('"' :: cs2) =
      (pStrBody cs2).bind (fun pk =>
        match pk.2 with
        | [] => none
        | d :: ds =>
          if d = ':' then
            (pVal f ds).bind (fun pv =>
              match pv.2 with
              | [] => none
              | d2 :: ds2 =>
                if d2 = ',' then
                  (pMems f ds2).map (fun q => (JsonObj.cons (String.mk pk.1) pv.1 q.1, q.2))
                else if d2 = '}' then some (.cons (String.mk pk.1) pv.1 .nil, ds2)
                else none)
          else none) := rfl


/-- Master round trip: with enough fuel, the parser returns exactly the
rendered value and the untouched remainder (which must not begin with a
digit, as no remainder inside a rendered document does). -/
theorem parse_render (fuel : Nat) :
    (∀ (j : Json) (rest : List Char), noDigitHead rest = true →
        (renderV j).length ≤ fuel → pVal fuel (renderV j ++ rest) = some (j, rest)) ∧
    (∀ (v : Json) (vs : JsonArr) (rest : List Char), noDigitHead rest = true →
        (renderV v).length + (renderArrTail vs).length ≤ fuel →
        pElems fuel (renderV v ++ (renderArrTail vs ++ rest)) = some (.cons v vs, rest)) ∧
    (∀ (k : String) (v : Json) (ms : JsonObj) (rest : List Char), noDigitHead rest = true →
        (renderStr k).length + 1 + (renderV v).length + (renderObjTail ms).length ≤ fuel →
        pMems fuel (renderStr k ++ (':' :: (renderV v ++ (renderObjTail ms ++ rest)))) =
          some (.cons k v ms, rest)) := by
  induction fuel with
  | zero =>
    refine ⟨fun j rest _ hlen => ?_, fun v vs rest _ hlen => ?_, fun k v ms rest _ hlen => ?_⟩
    · have := renderV_length_pos j
      omega
    · have := renderV_length_pos v
      omega
    · omega
  | succ f ih =>
    obtain ⟨ihV, ihA, ihO⟩ := ih
    refine ⟨fun j rest hnd hlen => ?_, fun v vs rest hnd hlen => ?_,
      fun k v ms rest hnd hlen => ?_⟩
    · cases j with
      | null => exact pVal_null f rest
      | bool b =>
        cases b with
        | false => exact pVal_false f rest
        | true => exact pVal_true f rest
      | num i =>
        by_cases hneg : i < 0
        · have hr : renderV (.num i) ++ rest = '-' :: (natChars i.natAbs ++ rest) := by
            show intChars i ++ rest = _
            simp [intChars, hneg]
          rw [hr, pVal_minus]
          rw [show '-' :: (natChars i.natAbs ++ rest) = intChars i ++ rest from by
            simp [intChars, hneg]]
          rw [pNum_intChars hnd]
          rfl
        · obtain ⟨c, t, hshape⟩ := natChars_shape i.natAbs
          have hdig : isDigitCh c = true := natChars_digits i.natAbs c (by simp [hshape])
          have hr : renderV (.num i) ++ rest = c :: (t ++ rest) := by
            show intChars i ++ rest = _
            simp [intChars, hneg, hshape]
          rw [hr, pVal_digit f c _ hdig]
          rw [show c :: (t ++ rest) = intChars i ++ rest from by
            simp [intChars, hneg, hshape]]
          rw [pNum_intChars hnd]
          rfl
      | str s =>
        have hr : renderV (.str s) ++ rest =
            '"' :: (s.data.flatMap escChar ++ '"' :: rest) := by
          show renderStr s ++ rest = _
          simp [renderStr]
        rw [hr, pVal_quote, pStrBody_esc]
        rfl
      | arr a =>
        cases a with
        | nil => exact pVal_arrNil f rest
        | cons v vs =>
          obtain ⟨c, t, hshape, hc1, -⟩ := renderV_head v
          have hlen2 : (renderV v).length + (renderArrTail vs).length ≤ f := by
            have hV : renderV (.arr (.cons v vs)) = '[' :: (renderV v ++ renderArrTail vs) := rfl
            rw [hV] at hlen
            simp at hlen
            omega
          have hr : renderV (.arr (.cons v vs)) ++ rest =
              '[' :: (c :: (t ++ (renderArrTail vs ++ rest))) := by
            show ('[' :: (renderV v ++ renderArrTail vs)) ++ rest = _
            simp [hshape]
          rw [hr, pVal_arrCons f c _ hc1]
          rw [show c :: (t ++ (renderArrTail vs ++ rest)) =
              renderV v ++ (renderArrTail vs ++ rest) from by simp [hshape]]
          rw [ihA v vs rest hnd hlen2]
          rfl
      | obj o =>
        cases o with
        | nil => exact pVal_objNil f rest
        | cons k v ms =>
          have hlen2 : (renderStr k).length + 1 + (renderV v).length +
              (renderObjTail ms).length ≤ f := by
            have hV : renderV (.obj (.cons k v ms)) =
                '{' :: (renderStr k ++ ':' :: renderV v ++ renderObjTail ms) := rfl
            rw [hV] at hlen
            simp at hlen
            omega
          have hr : renderV (.obj (.cons k v ms)) ++ rest =
              '{' :: ('"' :: (k.data.flatMap escChar ++
                ('"' :: (':' :: (renderV v ++ (renderObjTail ms ++ rest)))))) := by
            show ('{' :: (renderStr k ++ ':' :: renderV v ++ renderObjTail ms)) ++ rest = _
            simp [renderStr]
          rw [hr, pVal_objCons f '"' _ (by decide)]
          rw [show '"' :: (k.data.flatMap escChar ++
              ('"' :: (':' :: (renderV v ++ (renderObjTail ms ++ rest))))) =
              renderStr k ++ (':' :: (renderV v ++ (renderObjTail ms ++ rest))) from by
            simp [renderStr]]
          rw [ihO k v ms rest hnd hlen2]
          rfl
    · -- pElems: one element, then the rendered tail
      have hlenV : (renderV v).length ≤ f := by
        have := renderArrTail_length_pos vs
        omega
      cases vs with
      | nil =>
        rw [show renderArrTail (.nil : JsonArr) ++ rest = ']' :: rest from rfl]
        rw [pElems_succ, ihV v (']' :: rest) rfl hlenV]
        simp
      | cons w ws =>
        have hlen2 : (renderV w).length + (renderArrTail ws).length ≤ f := by
          have hT : renderArrTail (.cons w ws) = ',' :: (renderV w ++ renderArrTail ws) := rfl
          rw [hT] at hlen
          simp at hlen
          omega
        rw [show renderArrTail (.cons w ws) ++ rest =
            ',' :: (renderV w ++ (renderArrTail ws ++ rest)) from by
          show (',' :: (renderV w ++ renderArrTail ws)) ++ rest = _
          simp]
        rw [pElems_succ, ihV v (',' :: (renderV w ++ (renderArrTail ws ++ rest))) rfl hlenV]
        simp only [Option.some_bind]
        simp only [if_pos rfl, ihA w ws rest hnd hlen2]
        rfl
    · -- pMems: one key-value pair, then the rendered tail
      have hlenV : (renderV v).length ≤ f := by omega
      have hndT : noDigitHead (renderObjTail ms ++ rest) = true := by
        cases ms <;> rfl
      have hr : renderStr k ++ (':' :: (renderV v ++ (renderObjTail ms ++ rest))) =
          '"' :: (k.data.flatMap escChar ++
            ('"' :: (':' :: (renderV v ++ (renderObjTail ms ++ rest))))) := by
        simp [renderStr]
      rw [hr, pMems_quote, pStrBody_esc]
      simp only [Option.some_bind, if_pos, if_true]
      rw [ihV v (renderObjTail ms ++ rest) hndT hlenV]
      simp only [Option.some_bind]
      cases ms with
      | nil =>
        rw [show renderObjTail (.nil : JsonObj) ++ rest = '}' :: rest from rfl]
        simp
      | cons k2 v2 ms2 =>
        have hlen2 : (renderStr k2).length + 1 + (renderV v2).length +
            (renderObjTail ms2).length ≤ f := by
          have hT : renderObjTail (.cons k2 v2 ms2) =
              ',' :: (renderStr k2 ++ ':' :: renderV v2 ++ renderObjTail ms2) := rfl
          rw [hT] at hlen
          simp at hlen
          omega
        rw [show renderObjTail (.cons k2 v2 ms2) ++ rest =
            ',' :: (renderStr k2 ++ (':' :: (renderV v2 ++ (renderObjTail ms2 ++ rest)))) from by
          show (',' :: (renderStr k2 ++ ':' :: renderV v2 ++ renderObjTail ms2)) ++ rest = _
          simp]
        simp only [if_pos rfl, ihO k2 v2 ms2 rest hnd hlen2]
        rfl


/-- Top-level round trip: parsing a rendered JSON document returns it. -/
theorem parseJson_renderJson (j : Json) : parseJson (renderJson j) = .ok j := by
  have h := (parse_render ((renderV j).length + 1)).1 j [] rfl (by omega)
  rw [List.append_nil] at h
  have h0 : parseJson (renderJson j) =
      (match pVal ((renderV j).length + 1) (renderV j) with
        | some (v, []) => Except.ok v
        | _ => Except.error DecodeError.malformed) := rfl
  rw [h0, h]

/-! ### Decoding the serialized SubscriptionRequest value -/

theorem except_ok_bind {α β : Type} (a : α) (f : α → Except DecodeError β) :
    (Except.ok a : Except DecodeError α) >>= f = f a := rfl

theorem except_error_bind {α β : Type} (e : DecodeError) (f : α → Except DecodeError β) :
    (Except.error e : Except DecodeError α) >>= f = .error e := rfl

theorem decodeStrElems_ofStrings (l : List String) :
    decodeStrElems (SubscriptionRequest.toJsonValue.strArr l) = .ok l := by
  induction l with
  | nil => rfl
  | cons s ss ih =>
    have h0 : decodeStrElems (SubscriptionRequest.toJsonValue.strArr (s :: ss)) =
        (decodeStrElems (SubscriptionRequest.toJsonValue.strArr ss)) >>= (fun rest =>
          Except.ok (s :: rest)) := rfl
    rw [h0, ih]
    rfl

theorem decodeU64_natCast {n : Nat} (h : n < 2 ^ 64) :
    decodeU64 (.num (n : Int)) = .ok n := by
  have h0 : decodeU64 (.num (n : Int)) =
      if 0 ≤ (n : Int) ∧ (n : Int) < 2 ^ 64 then .ok (n : Int).toNat
      else .error (.typeMismatch "u64") := rfl
  rw [h0, if_pos ⟨Int.natCast_nonneg n, by exact_mod_cast h⟩]
  rfl

theorem findField_cons (k : String) (v : Json) (tl : JsonObj) (names : List String) :
    findField (.cons k v tl) names = if k ∈ names then some v else findField tl names := rfl

theorem reqField_some {fs : JsonObj} {names : List String} {n : String} {v : Json}
    (h : findField fs names = some v) : reqField fs names n = .ok v := by
  unfold reqField
  rw [h]

theorem decodeString_str (s : String) : decodeString (.str s) = .ok s := rfl

theorem decodeStrList_arr (a : JsonArr) : decodeStrList (.arr a) = decodeStrElems a := rfl

theorem subreq_fromJsonValue_obj (fs : JsonObj) :
    SubscriptionRequest.fromJsonValue (.obj fs) =
      ((reqField fs ["method"] "method" >>= decodeString) >>= fun m =>
        (reqField fs ["params"] "params" >>= decodeStrList) >>= fun p =>
          (reqField fs ["id"] "id" >>= decodeU64) >>= fun i =>
            Except.ok { method := m, params := p, id := i }) := rfl

theorem subreq_fromJsonValue_toJsonValue (r : SubscriptionRequest)
    (h : r.id < 2 ^ 64) :
    SubscriptionRequest.fromJsonValue r.toJsonValue = .ok r := by
  have f1 : findField
      (.cons "method" (.str r.method)
        (.cons "params" (.arr (SubscriptionRequest.toJsonValue.strArr r.params))
          (.cons "id" (.num (r.id : Int)) .nil))) ["method"] = some (.str r.method) := by
    rw [findField_cons, if_pos (by decide)]
  have f2 : findField
      (.cons "method" (.str r.method)
        (.cons "params" (.arr (SubscriptionRequest.toJsonValue.strArr r.params))
          (.cons "id" (.num (r.id : Int)) .nil))) ["params"] =
        some (.arr (SubscriptionRequest.toJsonValue.strArr r.params)) := by
    rw [findField_cons, if_neg (by decide), findField_cons, if_pos (by decide)]
  have f3 : findField
      (.cons "method" (.str r.method)
        (.cons "params" (.arr (SubscriptionRequest.toJsonValue.strArr r.params))
          (.cons "id" (.num (r.id : Int)) .nil))) ["id"] = some (.num (r.id : Int)) := by
    rw [findField_cons, if_neg (by decide), findField_cons, if_neg (by decide),
      findField_cons, if_pos (by decide)]
  show SubscriptionRequest.fromJsonValue
      (.obj (.cons "method" (.str r.method)
        (.cons "params" (.arr (SubscriptionRequest.toJsonValue.strArr r.params))
          (.cons "id" (.num (r.id : Int)) .nil)))) = .ok r
  rw [subreq_fromJsonValue_obj, reqField_some f1, reqField_some f2, reqField_some f3]
  rw [except_ok_bind, decodeString_str, except_ok_bind]
  rw [except_ok_bind, decodeStrList_arr, decodeStrElems_ofStrings, except_ok_bind]
  rw [except_ok_bind, decodeU64_natCast h, except_ok_bind]

theorem subreq_foldl_add_stream (r : SubscriptionRequest) (names : List String) :
    names.foldl SubscriptionRequest.add_stream r = { r with params := r.params ++ names } := by
  induction names generalizing r with
  | nil => cases r; simp
  | cons n ns ih =>
    rw [List.foldl_cons, ih]
    cases r
    simp [SubscriptionRequest.add_stream]

/-! ### The claims -/

set_option maxRecDepth 1000000

/-- C1: for every SubscriptionRequest built by the constructor plus zero
or more `add_stream` calls (any stream-name strings, any `u64` id),
decoding the JSON text produced by `to_json` yields a value equal to the
original request. -/
theorem subscription_request_roundtrip (id : Nat) (streams : List String)
    (h : id < 2 ^ 64) :
    (SubscriptionRequest.to_json
        (streams.foldl SubscriptionRequest.add_stream (SubscriptionRequest.new id))).bind
      SubscriptionRequest.from_json =
      .ok (streams.foldl SubscriptionRequest.add_stream (SubscriptionRequest.new id)) := by
  set req := streams.foldl SubscriptionRequest.add_stream (SubscriptionRequest.new id) with hreq
  have hid : req.id = id := by
    rw [hreq, subreq_foldl_add_stream]
    rfl
  have h0 : (SubscriptionRequest.to_json req).bind SubscriptionRequest.from_json =
      SubscriptionRequest.from_json (renderJson req.toJsonValue) := rfl
  rw [h0]
  show (parseJson (renderJson req.toJsonValue)).bind SubscriptionRequest.fromJsonValue = .ok req
  rw [parseJson_renderJson]
  show SubscriptionRequest.fromJsonValue req.toJsonValue = .ok req
  exact subreq_fromJsonValue_toJsonValue req (by rw [hid]; exact h)

/-- Witness for C1 at a concrete id and stream list. -/
theorem subscription_request_roundtrip_witness :
    7 < 2 ^ 64 ∧
    (SubscriptionRequest.to_json
        (["btcusdt@ticker", "ethusdt@depth"].foldl SubscriptionRequest.add_stream
          (SubscriptionRequest.new 7))).bind SubscriptionRequest.from_json =
      .ok (["btcusdt@ticker", "ethusdt@depth"].foldl SubscriptionRequest.add_stream
        (SubscriptionRequest.new 7)) :=
  ⟨by norm_num,
    subscription_request_roundtrip 7 ["btcusdt@ticker", "ethusdt@depth"] (by norm_num)⟩

/-- C2: decoding `{"result":null,"id":500}` gives an absent result,
decoding `{"result":[],"id":500}` gives a present empty result, and the
two decoded values are unequal. -/
theorem response_null_vs_empty :
    SubscriptionResponse.from_json textResultNull = .ok { result := none, id := 500 } ∧
    SubscriptionResponse.from_json textResultEmpty = .ok { result := some [], id := 500 } ∧
    ({ result := none, id := 500 } : SubscriptionResponse) ≠ { result := some [], id := 500 } := by
  refine ⟨by decide, by decide, by decide⟩

/-- C3: the spec's literal trade tick decodes to the expected record, the
decoded `price` and `quantity` are exactly the values of `4532.56` and
`0.0132`, and the trailing zeros of the decimal strings do not affect the
decoded values. -/
theorem trade_literal_decode :
    Trade.from_json tradeWireText = .ok tradeExpected ∧
    tradeExpected.price = mkF64 453256 100 ∧
    tradeExpected.quantity = mkF64 132 10000 ∧
    parseF64 "4532.56000000" = parseF64 "4532.56" ∧
    parseF64 "0.01320000" = parseF64 "0.0132" := by
  refine ⟨by decide, by decide, by decide, by decide, by decide⟩

/-- The serde-derived Trade deserializer on any parsed JSON object, as a
definitional unfolding. -/
theorem trade_fromJsonValue_obj (fs : JsonObj) :
    Trade.fromJsonValue (.obj fs) =
      ((reqField fs ["event-type", "e"] "event_type" >>= decodeString) >>= fun et =>
        (reqField fs ["event-time", "E"] "event_time" >>= decodeU64) >>= fun etime =>
          (reqField fs ["symbol", "s"] "symbol" >>= decodeString) >>= fun sym =>
            (reqField fs ["trade-id", "t"] "trade_id" >>= decodeU64) >>= fun tid =>
              (reqField fs ["price", "p"] "price" >>= de_string_to_f64) >>= fun pr =>
                (reqField fs ["quantity", "q"] "quantity" >>= de_string_to_f64) >>= fun qt =>
                  (reqField fs ["trade-time", "T"] "trade_time" >>= decodeU64) >>= fun ttime =>
                    (reqField fs ["is-buyer-market-maker", "m"] "is_buyer_market_maker" >>=
                        decodeBool) >>= fun mm =>
                      (reqField fs ["ignore", "M"] "ignore" >>= decodeBool) >>= fun ig =>
                        Except.ok (Trade.mk et etime sym tid pr qt ttime mm ig)) := rfl

/-- C4: on any trade input text whose `p` field holds the JSON string
`"not-a-number"` while the other eight fields are well-typed, decoding
fails with the numeric-parse error carrying that string; no panic, no
default value. -/
theorem trade_bad_price_errors (s : String) (fs : JsonObj)
    (et sym : String) (etime tid ttime : Nat) (qv : F64Val) (mm ig : Bool)
    (hparse : parseJson s = .ok (.obj fs))
    (hp : findField fs ["price", "p"] = some (.str "not-a-number"))
    (h1 : reqField fs ["event-type", "e"] "event_type" >>= decodeString = .ok et)
    (h2 : reqField fs ["event-time", "E"] "event_time" >>= decodeU64 = .ok etime)
    (h3 : reqField fs ["symbol", "s"] "symbol" >>= decodeString = .ok sym)
    (h4 : reqField fs ["trade-id", "t"] "trade_id" >>= decodeU64 = .ok tid)
    (h5 : reqField fs ["quantity", "q"] "quantity" >>= de_string_to_f64 = .ok qv)
    (h6 : reqField fs ["trade-time", "T"] "trade_time" >>= decodeU64 = .ok ttime)
    (h7 : reqField fs ["is-buyer-market-maker", "m"] "is_buyer_market_maker" >>= decodeBool =
      .ok mm)
    (h8 : reqField fs ["ignore", "M"] "ignore" >>= decodeBool = .ok ig) :
    Trade.from_json s = .error (.numParse "not-a-number") := by
  have h0 : Trade.from_json s = (parseJson s).bind Trade.fromJsonValue := rfl
  rw [h0, hparse]
  show Trade.fromJsonValue (.obj fs) = .error (.numParse "not-a-number")
  have hpr : reqField fs ["price", "p"] "price" = .ok (.str "not-a-number") := by
    unfold reqField
    rw [hp]
  have hnan : de_string_to_f64 (.str "not-a-number") = .error (.numParse "not-a-number") := by
    decide
  rw [trade_fromJsonValue_obj, h1, except_ok_bind, h2, except_ok_bind, h3, except_ok_bind,
    h4, except_ok_bind, hpr, except_ok_bind, hnan, except_error_bind]

/-- Witness for C4: the literal trade text with `p = "not-a-number"`. -/
theorem trade_bad_price_errors_witness :
    parseJson tradeBadPriceText = .ok (.obj tradeBadPriceObj) ∧
    Trade.from_json tradeBadPriceText = .error (.numParse "not-a-number") :=
  ⟨by decide,
    trade_bad_price_errors tradeBadPriceText tradeBadPriceObj "trade" "ETHUSDT"
      1759680390108723 2921785139 1759680390108254 (mkF64 132 10000) true true
      (by decide) (by decide) (by decide) (by decide) (by decide) (by decide)
      (by decide) (by decide) (by decide) (by decide)⟩

/-- C5: `de_from_str` returns the string itself on a JSON string, the
textual form on a JSON boolean, and its custom decode error on every
other JSON value (null, number, array, object). -/
theorem de_from_str_spec :
    (∀ s : String, de_from_str (.str s) = .ok (some s)) ∧
    (∀ b : Bool, de_from_str (.bool b) =
      .ok (some (if b then "true" else "false"))) ∧
    de_from_str .null = .error (.custom "Failed to deserialize to String or bool") ∧
    (∀ n : Int, de_from_str (.num n) =
      .error (.custom "Failed to deserialize to String or bool")) ∧
    (∀ a : JsonArr, de_from_str (.arr a) =
      .error (.custom "Failed to deserialize to String or bool")) ∧
    (∀ o : JsonObj, de_from_str (.obj o) =
      .error (.custom "Failed to deserialize to String or bool")) :=
  ⟨fun _ => rfl, fun b => by cases b <;> rfl, rfl, fun _ => rfl, fun _ => rfl, fun _ => rfl⟩

/-- C6: encoding the literal request of the spec yields exactly the
expected text, and in general the encoder emits the keys `method`,
`params`, `id` verbatim, in that order, with no whitespace. -/
theorem encode_subscription_request_literal :
    (((SubscriptionRequest.new 789).add_stream "btcusdt@ticker").add_stream
        "ethusdt@kline_1m").to_json =
      .ok "\x7b\"method\":\"SUBSCRIBE\",\"params\":[\"btcusdt@ticker\",\"ethusdt@kline_1m\"],\"id\":789\x7d" ∧
    ∀ r : SubscriptionRequest,
      (renderJson r.toJsonValue).data =
        '{' :: (renderStr "method" ++ ':' :: renderStr r.method ++
          ',' :: (renderStr "params" ++
            ':' :: renderV (.arr (SubscriptionRequest.toJsonValue.strArr r.params)) ++
              ',' :: (renderStr "id" ++ ':' :: intChars (r.id : Int) ++ ['}']))) := by
  refine ⟨by decide, fun r => rfl⟩

/-- C7: the constructor returns method `"SUBSCRIBE"`, empty params and
the given id; and any sequence of `add_stream` calls appends exactly the
given stream names, in call order, after the prior contents. -/
theorem new_and_add_stream_spec :
    (∀ id : Nat, SubscriptionRequest.new id =
      { method := "SUBSCRIBE", params := [], id := id }) ∧
    (∀ (r : SubscriptionRequest) (names : List String),
      names.foldl SubscriptionRequest.add_stream r =
        { r with params := r.params ++ names }) :=
  ⟨fun _ => rfl, fun r names => subreq_foldl_add_stream r names⟩

/-- C8: `to_json` returns a success value for every well-formed in-memory
SubscriptionRequest; encoding never fails. -/
theorem encode_never_fails (r : SubscriptionRequest) :
    ∃ s : String, r.to_json = .ok s :=
  ⟨renderJson r.toJsonValue, rfl⟩

/-- C9: decoding the trade object keyed by the kebab-case canonical names
yields the same Trade as decoding the equivalent object keyed by the
single-letter wire tags. -/
theorem trade_kebab_alias_decode :
    Trade.from_json tradeKebabText = Trade.from_json tradeWireText ∧
    Trade.from_json tradeKebabText = .ok tradeExpected := by
  refine ⟨by decide, by decide⟩

/-- C10: a subscription-response object with no `result` key at all
decodes successfully to an absent result, the same value as when `result`
is explicitly null. -/
theorem response_missing_result :
    SubscriptionResponse.from_json textNoResult = .ok { result := none, id := 500 } ∧
    SubscriptionResponse.from_json textNoResult =
      SubscriptionResponse.from_json textResultNull := by
  refine ⟨by decide, by decide⟩

end Binance
